import Mathlib

/-!
Verification of the Aetheris shared simulation / streaming core.

Shallow embedding of the parts of the C++ sources that the checked claims
are about:

* `src/shared/include/packets.h` — the big-endian packet codec
  (`writeU32`, `readU32`, `ChunkDataPacket::serialize/deserialize/from/toMesh`).
* `src/shared/src/noise_gen.cpp` — `sampleSurfaceY` and the per-cell density
  of `generateChunk`.
* `src/shared/include/thread_pool.h` — the worker loop and shutdown behavior.
* `src/server/src/chunk_manager.cpp` — `scheduleChunk` / `updateClient`.
* `src/client/src/player.cpp` — `addChunkMesh` / `spawnChunksReady`.
* `src/client/include/combat_system.h` — the combat request interface and
  `resolveHits`.

Modelling conventions:

* machine integers are `Nat` / `Int` with explicit `% 2 ^ w` where the C++
  performs a conversion that wraps;
* 32-bit floats on the wire are represented by their IEEE-754 bit patterns
  (a `Nat` below `2 ^ 32`): `writeF32`/`readF32` in the C++ are exactly
  `writeU32`/`readU32` on the bit pattern, so the codec is bit-precise;
* float arithmetic in the simulation (noise, combat) is idealized as exact
  arithmetic: `ℚ` where the code uses only field operations, `ℝ` where it
  also takes square roots (`glm::length` / `glm::normalize`);
* a buffer access outside the supplied byte range (undefined behavior in the
  C++, which performs no bounds check) is modelled by an `Option` reader
  returning `none`.
-/

/-! ### Shared data model (src/shared/include/chunk.h) -/

/-- Source `ChunkCoord` — integer triple addressing a 32-unit cube. -/
structure ChunkCoord where
  x : Int
  y : Int
  z : Int
deriving DecidableEq, Repr

/-- Source `ChunkData::SIZE` — side of a chunk in world units. -/
def chunkSize : Int := 32

namespace Packets

/-! ### Packet codec (src/shared/include/packets.h)

Bytes are `Nat` values; every byte emitted by the writers is `< 256` by
construction (`& 0xFF`). A 32-bit float on the wire is its IEEE-754 bit
pattern, written and read as a `u32`, so vertex data is modelled directly by
the bit patterns. -/

/-- Source `writeU32` — big-endian bytes of a `uint32_t`. The argument is masked
byte-by-byte exactly as the C++ `(v >> k) & 0xFF`, so values `≥ 2 ^ 32`
behave as the C++ truncating conversion to `uint32_t`. -/
def writeU32 (v : Nat) : List Nat :=
  [v / 2 ^ 24 % 256, v / 2 ^ 16 % 256, v / 2 ^ 8 % 256, v % 256]

/-- Source `writeI32` — the C++ casts the `int32_t` to `uint32_t` (two's complement)
and writes that. -/
def writeI32 (v : Int) : List Nat :=
  writeU32 (v % 2 ^ 32).toNat

/-- Source `writeF32` — the float's IEEE-754 bits written as a `u32`; in this
embedding a float value is its bit pattern. -/
def writeF32 (v : Nat) : List Nat :=
  writeU32 v

/-- Source `readU32` — consume four bytes big-endian. `none` models the C++ reading
past the end of the supplied buffer (no bounds check in the source). -/
def readU32 : List Nat → Option (Nat × List Nat)
  | b0 :: b1 :: b2 :: b3 :: rest =>
      some (b0 * 2 ^ 24 + b1 * 2 ^ 16 + b2 * 2 ^ 8 + b3, rest)
  | _ => none

/-- Reinterpret a `u32` as an `int32_t` (two's complement), as the C++
`(int32_t)readU32(..)`. -/
def toI32 (u : Nat) : Int :=
  if u < 2 ^ 31 then (u : Int) else (u : Int) - 2 ^ 32

/-- Source `readI32` — `readU32` reinterpreted as signed. -/
def readI32 (l : List Nat) : Option (Int × List Nat) :=
  (readU32 l).map fun p => (toI32 p.1, p.2)

/-- Read `n` consecutive `u32` values. -/
def readWords : Nat → List Nat → Option (List Nat × List Nat)
  | 0, l => some ([], l)
  | n + 1, l => do
      let (w, r) ← readU32 l
      let (ws, r') ← readWords n r
      pure (w :: ws, r')

/-- Source `Vertex` component vector: three float bit patterns. -/
structure Vec3F where
  x : Nat
  y : Nat
  z : Nat
deriving DecidableEq, Repr

/-- Source `Vertex { pos, normal }` (src/shared/include/chunk.h). -/
structure Vertex where
  pos : Vec3F
  normal : Vec3F
deriving DecidableEq, Repr

/-- Source `ChunkMesh { coord, vertices, indices }`. -/
structure ChunkMesh where
  coord : ChunkCoord
  vertices : List Vertex
  indices : List Nat
deriving DecidableEq, Repr

/-- Source `ChunkDataPacket { coord, vertices, indices }` — `vertices` is the flat
interleaved float list (x, y, z, nx, ny, nz per vertex), as in the source. -/
structure ChunkDataPacket where
  coord : ChunkCoord
  vertices : List Nat
  indices : List Nat
deriving DecidableEq, Repr

/-- Source `ChunkDataPacket::from(mesh)` — flatten each vertex into six floats
(`from` is a Lean keyword, hence the name `ofMesh`). -/
def ChunkDataPacket.ofMesh (m : ChunkMesh) : ChunkDataPacket where
  coord := m.coord
  vertices := m.vertices.flatMap fun v =>
    [v.pos.x, v.pos.y, v.pos.z, v.normal.x, v.normal.y, v.normal.z]
  indices := m.indices

/-- The regrouping loop of `ChunkDataPacket::toMesh`
(`for (i = 0; i + 5 < vertices.size(); i += 6)`): groups of six floats become
vertices, a trailing remainder shorter than six is dropped. -/
def groupVerts : List Nat → List Vertex
  | px :: py :: pz :: nx :: ny :: nz :: rest =>
      ⟨⟨px, py, pz⟩, ⟨nx, ny, nz⟩⟩ :: groupVerts rest
  | _ => []

/-- Source `ChunkDataPacket::toMesh`. -/
def ChunkDataPacket.toMesh (p : ChunkDataPacket) : ChunkMesh where
  coord := p.coord
  vertices := groupVerts p.vertices
  indices := p.indices

/-- Source `PacketID::ChunkData`. -/
def chunkDataTag : Nat := 1

/-- Source `ChunkDataPacket::serialize` — tag, coord as three `i32`, then
`writeU32(vertices.size())` (the size of the **flat float vector**), the
floats, `writeU32(indices.size())` and the indices. -/
def ChunkDataPacket.serialize (p : ChunkDataPacket) : List Nat :=
  chunkDataTag ::
    (writeI32 p.coord.x ++ writeI32 p.coord.y ++ writeI32 p.coord.z ++
     writeU32 p.vertices.length ++ p.vertices.flatMap writeF32 ++
     writeU32 p.indices.length ++ p.indices.flatMap writeU32)

/-- Source `ChunkDataPacket::deserialize(d, len)` — the C++ starts at offset 1
(skipping the tag byte, which is never inspected) and performs unchecked
indexed reads; the `len` parameter is ignored. A read past the end of the
buffer is `none` here (undefined behavior in the C++). -/
def ChunkDataPacket.deserialize (d : List Nat) : Option ChunkDataPacket := do
  let r := d.drop 1
  let (cx, r) ← readI32 r
  let (cy, r) ← readI32 r
  let (cz, r) ← readI32 r
  let (vc, r) ← readU32 r
  let (vs, r) ← readWords vc r
  let (ic, r) ← readU32 r
  let (is, _) ← readWords ic r
  pure ⟨⟨cx, cy, cz⟩, vs, is⟩

/-! #### Codec lemmas -/

theorem readU32_writeU32 (v : Nat) (h : v < 2 ^ 32) (rest : List Nat) :
    readU32 (writeU32 v ++ rest) = some (v, rest) := by
  show readU32 (_ :: _ :: _ :: _ :: rest) = _
  simp only [readU32, Option.some.injEq, Prod.mk.injEq, and_true]
  omega

theorem readI32_writeI32 (v : Int) (hlo : -2 ^ 31 ≤ v) (hhi : v < 2 ^ 31)
    (rest : List Nat) : readI32 (writeI32 v ++ rest) = some (v, rest) := by
  have hmod : (0 : Int) ≤ v % 2 ^ 32 := Int.emod_nonneg v (by norm_num)
  have hmodlt : v % 2 ^ 32 < 2 ^ 32 := Int.emod_lt_of_pos v (by norm_num)
  rw [writeI32, readI32, readU32_writeU32 _ (by omega)]
  rw [Option.map_some']
  congr 2
  rw [toI32]
  have h32 : ((2 : Int) ^ 32) ∣ (v - v % 2 ^ 32) := Int.dvd_sub_of_emod_eq rfl
  split <;> omega

theorem readWords_flatMap (ws : List Nat) (hw : ∀ w ∈ ws, w < 2 ^ 32)
    (rest : List Nat) :
    readWords ws.length (ws.flatMap writeU32 ++ rest) = some (ws, rest) := by
  induction ws with
  | nil => simp [readWords]
  | cons w ws ih =>
      have hwlt : w < 2 ^ 32 := hw w (List.mem_cons_self w ws)
      simp only [List.length_cons, List.flatMap_cons, readWords, List.append_assoc,
        readU32_writeU32 w hwlt, Option.bind_eq_bind, Option.some_bind]
      rw [ih (fun x hx => hw x (List.mem_cons_of_mem w hx))]
      rfl

theorem flatMap_writeF32 (ws : List Nat) :
    ws.flatMap writeF32 = ws.flatMap writeU32 := rfl

theorem deserialize_serialize (p : ChunkDataPacket)
    (hx1 : -2 ^ 31 ≤ p.coord.x) (hx2 : p.coord.x < 2 ^ 31)
    (hy1 : -2 ^ 31 ≤ p.coord.y) (hy2 : p.coord.y < 2 ^ 31)
    (hz1 : -2 ^ 31 ≤ p.coord.z) (hz2 : p.coord.z < 2 ^ 31)
    (hvc : p.vertices.length < 2 ^ 32) (hic : p.indices.length < 2 ^ 32)
    (hv : ∀ w ∈ p.vertices, w < 2 ^ 32) (hi : ∀ w ∈ p.indices, w < 2 ^ 32) :
    ChunkDataPacket.deserialize (ChunkDataPacket.serialize p) = some p := by
  rw [ChunkDataPacket.serialize, ChunkDataPacket.deserialize]
  simp only [List.drop_succ_cons, List.drop_zero, List.append_assoc, flatMap_writeF32]
  rw [readI32_writeI32 p.coord.x hx1 hx2]
  simp only [Option.bind_eq_bind, Option.some_bind]
  rw [readI32_writeI32 p.coord.y hy1 hy2]
  simp only [Option.some_bind]
  rw [readI32_writeI32 p.coord.z hz1 hz2]
  simp only [Option.some_bind]
  rw [readU32_writeU32 p.vertices.length hvc]
  simp only [Option.some_bind]
  rw [readWords_flatMap p.vertices hv]
  simp only [Option.some_bind]
  rw [readU32_writeU32 p.indices.length hic]
  simp only [Option.some_bind]
  have hlast := readWords_flatMap p.indices hi []
  rw [List.append_nil] at hlast
  rw [hlast]
  simp only [Option.some_bind, Option.pure_def]

theorem groupVerts_flatMap (vs : List Vertex) :
    groupVerts (vs.flatMap fun v =>
      [v.pos.x, v.pos.y, v.pos.z, v.normal.x, v.normal.y, v.normal.z]) = vs := by
  induction vs with
  | nil => rfl
  | cons v vs ih =>
      simp only [List.flatMap_cons, List.cons_append, List.nil_append]
      rw [groupVerts, ih]

theorem length_ofMesh_vertices (m : ChunkMesh) :
    (ChunkDataPacket.ofMesh m).vertices.length = 6 * m.vertices.length := by
  rw [ChunkDataPacket.ofMesh]
  induction m.vertices with
  | nil => rfl
  | cons v vs ih =>
      simp only [List.flatMap_cons, List.length_append, List.length_cons, ih]
      simp only [List.length_nil, List.length_cons]
      omega

theorem toMesh_ofMesh (m : ChunkMesh) :
    (ChunkDataPacket.ofMesh m).toMesh = m := by
  obtain ⟨c, vs, is⟩ := m
  simp only [ChunkDataPacket.ofMesh, ChunkDataPacket.toMesh]
  rw [groupVerts_flatMap]

/-- The spec's "codec vector" mesh: coord (1, −2, 3), one vertex with
position (1, 2, 3) and normal (0, 1, 0), one index 0. Vertex floats are
their IEEE-754 bit patterns: 1.0f = 0x3F800000, 2.0f = 0x40000000,
3.0f = 0x40400000, 0.0f = 0x00000000. -/
def exampleMesh : ChunkMesh where
  coord := ⟨1, -2, 3⟩
  vertices := [⟨⟨0x3F800000, 0x40000000, 0x40400000⟩, ⟨0, 0x3F800000, 0⟩⟩]
  indices := [0]

/-- The byte string the spec claims for the codec vector: the u32 after the
coordinate is 00000001 (the vertex count). -/
def claimedBytes : List Nat :=
  [0x01,
   0x00, 0x00, 0x00, 0x01,
   0xFF, 0xFF, 0xFF, 0xFE,
   0x00, 0x00, 0x00, 0x03,
   0x00, 0x00, 0x00, 0x01,
   0x3F, 0x80, 0x00, 0x00,
   0x40, 0x00, 0x00, 0x00,
   0x40, 0x40, 0x00, 0x00,
   0x00, 0x00, 0x00, 0x00,
   0x3F, 0x80, 0x00, 0x00,
   0x00, 0x00, 0x00, 0x00,
   0x00, 0x00, 0x00, 0x01,
   0x00, 0x00, 0x00, 0x00]

/-- The byte string the source actually produces for the codec vector: the
u32 after the coordinate is 00000006, the length of the flat interleaved
float vector (6 floats per vertex). -/
def actualBytes : List Nat :=
  [0x01,
   0x00, 0x00, 0x00, 0x01,
   0xFF, 0xFF, 0xFF, 0xFE,
   0x00, 0x00, 0x00, 0x03,
   0x00, 0x00, 0x00, 0x06,
   0x3F, 0x80, 0x00, 0x00,
   0x40, 0x00, 0x00, 0x00,
   0x40, 0x40, 0x00, 0x00,
   0x00, 0x00, 0x00, 0x00,
   0x3F, 0x80, 0x00, 0x00,
   0x00, 0x00, 0x00, 0x00,
   0x00, 0x00, 0x00, 0x01,
   0x00, 0x00, 0x00, 0x00]

end Packets

/-- C1 (counterexample): encoding the ChunkData packet built from the mesh
with coord (1, −2, 3), one vertex (1, 2, 3, 0, 1, 0) and one index 0 does
NOT produce the spec's byte string — `serialize` writes
`writeU32(vertices.size())` where `vertices` is the flat float vector, so the
count after the coordinate is 6, not the vertex count 1. -/
theorem c1_codec_vector_counterexample :
    (Packets.ChunkDataPacket.ofMesh Packets.exampleMesh).serialize ≠
      Packets.claimedBytes := by decide

/-- C1 (amended): encoding the codec-vector packet produces the bytes
`01 00000001 FFFFFFFE 00000003 00000006 3F800000 40000000 40400000 00000000
3F800000 00000000 00000001 00000000` — the u32 written after the coordinate
is the length of the flat interleaved float vector, i.e. 6 × the vertex
count, for every mesh. -/
theorem c1_codec_vector_amended :
    (Packets.ChunkDataPacket.ofMesh Packets.exampleMesh).serialize =
        Packets.actualBytes ∧
      ∀ m : Packets.ChunkMesh,
        (Packets.ChunkDataPacket.ofMesh m).vertices.length =
          6 * m.vertices.length :=
  ⟨by decide, Packets.length_ofMesh_vertices⟩

/-- C1 witness: the amended count law applied at the codec-vector mesh. -/
theorem c1_codec_vector_amended_witness :
    (Packets.ChunkDataPacket.ofMesh Packets.exampleMesh).vertices.length =
      6 * Packets.exampleMesh.vertices.length :=
  c1_codec_vector_amended.2 Packets.exampleMesh

/-- C4 (code bug): `ChunkDataPacket::deserialize` ignores its `len` argument
and performs unchecked reads: on every strict prefix of the valid 49-byte
encoding of the codec-vector packet, the decoder walks past the end of the
buffer (modelled by `none` = out-of-bounds access, undefined behavior in the
C++) instead of reporting a typed decode error — no count validation, no
typed error path exists in the source. -/
theorem c4_truncated_deserialize_reads_out_of_bounds :
    Packets.actualBytes.length = 49 ∧
      ((List.range 49).all fun n =>
        (Packets.ChunkDataPacket.deserialize
          (Packets.actualBytes.take n)).isNone) = true := by
  constructor
  · decide
  · decide

/-- C7: for every `ChunkMesh m` whose coordinate fits in `i32`, whose flat
vertex data and index array fit the `u32` counts, and whose float bit
patterns and indices fit in 32 bits, decoding the serialized bytes of the
packet built from `m` succeeds and `toMesh` returns a mesh bitwise equal to
`m`. -/
theorem c7_codec_roundtrip (m : Packets.ChunkMesh)
    (hx1 : -2 ^ 31 ≤ m.coord.x) (hx2 : m.coord.x < 2 ^ 31)
    (hy1 : -2 ^ 31 ≤ m.coord.y) (hy2 : m.coord.y < 2 ^ 31)
    (hz1 : -2 ^ 31 ≤ m.coord.z) (hz2 : m.coord.z < 2 ^ 31)
    (hvc : 6 * m.vertices.length < 2 ^ 32)
    (hic : m.indices.length < 2 ^ 32)
    (hv : ∀ v ∈ m.vertices,
      v.pos.x < 2 ^ 32 ∧ v.pos.y < 2 ^ 32 ∧ v.pos.z < 2 ^ 32 ∧
      v.normal.x < 2 ^ 32 ∧ v.normal.y < 2 ^ 32 ∧ v.normal.z < 2 ^ 32)
    (hi : ∀ i ∈ m.indices, i < 2 ^ 32) :
    Packets.ChunkDataPacket.deserialize
        (Packets.ChunkDataPacket.ofMesh m).serialize =
      some (Packets.ChunkDataPacket.ofMesh m) ∧
      (Packets.ChunkDataPacket.ofMesh m).toMesh = m := by
  refine ⟨?_, Packets.toMesh_ofMesh m⟩
  apply Packets.deserialize_serialize
  · exact hx1
  · exact hx2
  · exact hy1
  · exact hy2
  · exact hz1
  · exact hz2
  · rw [Packets.length_ofMesh_vertices]; exact hvc
  · exact hic
  · intro w hw
    rw [Packets.ChunkDataPacket.ofMesh] at hw
    simp only [List.mem_flatMap] at hw
    obtain ⟨v, hv1, hv2⟩ := hw
    have := hv v hv1
    simp only [List.mem_cons, List.not_mem_nil, or_false] at hv2
    rcases hv2 with h | h | h | h | h | h <;> subst h <;> tauto
  · exact hi

namespace Noise

/-! ### Noise generator (src/shared/src/noise_gen.cpp)

Float arithmetic is idealized as exact rational arithmetic. The 64-bit hash
is exact `Nat` arithmetic modulo `2 ^ 64`; the C++ `int` expression
`x * 1619 + y * 31337 + z * 6971` is modelled with the usual two's-complement
wrap before the cast to `uint64_t`. `Config::WORLD_SEED` is declared in a
header that only names it, so the seed is a parameter throughout; every
statement below holds for all seeds. -/

/-- Conversion of a signed value to `uint64_t` (two's complement). -/
def u64 (a : Int) : Nat := (a % 2 ^ 64).toNat

/-- The 32-bit `int` arithmetic wrap (two's complement). -/
def i32wrap (a : Int) : Int := (a + 2 ^ 31) % 2 ^ 32 - 2 ^ 31

/-- Source `hashNoise(seed, x, y, z)` — the seeded 64-bit mixer, returning
`(h & 0xffffff) / 0xffffff` in [0, 1]. -/
def hashNoise (seed : Int) (x y z : Int) : ℚ :=
  let h0 : Nat := u64 seed
  let h1 : Nat := h0 ^^^ u64 (i32wrap (x * 1619 + y * 31337 + z * 6971))
  let h2 : Nat := h1 ^^^ (h1 >>> 16)
  let h3 : Nat := h2 * 0x45d9f3b37197344d % 2 ^ 64
  let h4 : Nat := h3 ^^^ (h3 >>> 16)
  ((h4 &&& 0xffffff : Nat) : ℚ) / (0xffffff : ℚ)

/-- Source `smoothstep(t) = t·t·(3 − 2·t)`. -/
def smoothstep (t : ℚ) : ℚ := t * t * (3 - 2 * t)

/-- Source `valueNoise(seed, x, y, z)` — trilinear interpolation of the eight
corner hashes with smoothstep weights, transcribed from the source. -/
def valueNoise (seed : Int) (x y z : ℚ) : ℚ :=
  let ix : Int := ⌊x⌋
  let iy : Int := ⌊y⌋
  let iz : Int := ⌊z⌋
  let fx : ℚ := x - ix
  let fy : ℚ := y - iy
  let fz : ℚ := z - iz
  let ux := smoothstep fx
  let uy := smoothstep fy
  let uz := smoothstep fz
  let v000 := hashNoise seed ix iy iz
  let v100 := hashNoise seed (ix + 1) iy iz
  let v010 := hashNoise seed ix (iy + 1) iz
  let v110 := hashNoise seed (ix + 1) (iy + 1) iz
  let v001 := hashNoise seed ix iy (iz + 1)
  let v101 := hashNoise seed (ix + 1) iy (iz + 1)
  let v011 := hashNoise seed ix (iy + 1) (iz + 1)
  let v111 := hashNoise seed (ix + 1) (iy + 1) (iz + 1)
  v000 + ux * (v100 - v000)
    + uy * (v010 - v000 + ux * (v110 - v010 - v100 + v000))
    + uz * (v001 - v000 + ux * (v101 - v001 - v100 + v000)
        + uy * (v011 - v001 - v010 + v000
            + ux * (v111 - v011 - v101 + v001 - v110 + v010 + v100 - v000)))

/-- The fBm accumulation loop: octave index `o`, remaining octaves, current
amplitude and frequency; per octave the seed is offset by `o * 1000`, the
amplitude halves and the frequency doubles. -/
def fbmLoop (seed : Int) (x y z : ℚ) (o : Nat) : Nat → ℚ → ℚ → ℚ
  | 0, _, _ => 0
  | rem + 1, amp, freq =>
      valueNoise (seed + o * 1000) (x * freq) (y * freq) (z * freq) * amp +
        fbmLoop seed x y z (o + 1) rem (amp * 0.5) (freq * 2)

/-- Source `fbm(seed, x, y, z, octaves)` — starts at amplitude 0.5 and frequency 1,
then remaps the [0, 1) sum to [−1, 1). -/
def fbm (seed : Int) (x y z : ℚ) (octaves : Nat) : ℚ :=
  fbmLoop seed x y z 0 octaves 0.5 1 * 2 - 1

/-- Source `sampleSurfaceY(wx, wz)` — note the trailing `+ 2.f` in the source
(line 55 of noise_gen.cpp). -/
def sampleSurfaceY (seed : Int) (wx wz : ℚ) : ℚ :=
  let hscale : ℚ := 0.008
  let hHeight : ℚ := 80
  let seaLevel : ℚ := 64
  let base := fbm seed (wx * hscale) 0 (wz * hscale) 4
  let detail := fbm (seed + 111111) (wx * hscale * 3) 0 (wz * hscale * 3) 3 * 0.25
  seaLevel + (base + detail) * hHeight + 2

/-- The per-column surface height computed inside `generateChunk`
(lines 73–75 of noise_gen.cpp) — the same base/detail fBms, but without the
`+ 2.f`. -/
def genSurfaceY (seed : Int) (wx wz : ℚ) : ℚ :=
  let hscale : ℚ := 0.008
  let hHeight : ℚ := 80
  let seaLevel : ℚ := 64
  let base := fbm seed (wx * hscale) 0 (wz * hscale) 4
  let detail := fbm (seed + 111111) (wx * hscale * 3) 0 (wz * hscale * 3) 3 * 0.25
  seaLevel + (base + detail) * hHeight

/-- The cave term of `generateChunk`: active only below `surfaceY − 4`,
shaped as the clamped absolute product of two decorrelated fBms. -/
def caveTerm (seed : Int) (wx wy wz surfaceY : ℚ) : ℚ :=
  if wy < surfaceY - 4 then
    (1 - |fbm (seed + 222222) (wx * 0.018) (wy * 0.018) (wz * 0.018) 2 *
          fbm (seed + 333333) (wx * 0.018 + 5) (wy * 0.018 + 5) (wz * 0.018 + 5) 2|
        * 4) * 0.6
  else 0

/-- The pre-clamp density of a cell of `generateChunk`:
`density = surfaceY − wy + cave` with the generator's own `surfaceY`. -/
def densityPre (seed : Int) (coord : ChunkCoord) (x y z : Nat) : ℚ :=
  let wx : ℚ := ((coord.x * 32 + x : Int) : ℚ)
  let wy : ℚ := ((coord.y * 32 + y : Int) : ℚ)
  let wz : ℚ := ((coord.z * 32 + z : Int) : ℚ)
  genSurfaceY seed wx wz - wy + caveTerm seed wx wy wz (genSurfaceY seed wx wz)

/-- The clamp to [−2, 2] applied before sign-flipping. -/
def clampDensity (d : ℚ) : ℚ :=
  if d > 2 then 2 else if d < -2 then -2 else d

/-- The value `generateChunk` stores at a cell: `−density` after clamping. -/
def cellValue (seed : Int) (coord : ChunkCoord) (x y z : Nat) : ℚ :=
  -(clampDensity (densityPre seed coord x y z))

/-- Modelled from the spec's words, for comparison with the source: the
claimed sampler value `seaLevel + (baseFbm + detailFbm * 0.25) * amplitude`
with seaLevel 64 and amplitude 80. -/
def surfaceFormula (seed : Int) (wx wz : ℚ) : ℚ :=
  let baseFbm := fbm seed (wx * 0.008) 0 (wz * 0.008) 4
  let detailFbm := fbm (seed + 111111) (wx * 0.008 * 3) 0 (wz * 0.008 * 3) 3
  64 + (baseFbm + detailFbm * 0.25) * 80

end Noise

/-- C5 (counterexample): at column (0, 0) with seed 42 the sampler does not
return `seaLevel + (baseFbm + detailFbm * 0.25) * amplitude` — the source
adds a further `+ 2.f`. -/
theorem c5_surface_sampler_counterexample :
    Noise.sampleSurfaceY 42 0 0 ≠ Noise.surfaceFormula 42 0 0 := by
  intro h
  have hoff : Noise.sampleSurfaceY 42 0 0 = Noise.surfaceFormula 42 0 0 + 2 := rfl
  rw [hoff] at h
  linarith

/-- C5 (amended): for every seed and world column, `sampleSurfaceY` returns
the spec formula **plus 2**, while the surface height from which the volume
generator computes `density = (surfaceY − wy) + caveTerm` is the spec
formula **without** the offset; hence the sampler exceeds the generator's
surface height by exactly 2 everywhere. -/
theorem c5_surface_sampler_amended :
    ∀ (seed : Int) (wx wz : ℚ),
      Noise.sampleSurfaceY seed wx wz = Noise.surfaceFormula seed wx wz + 2 ∧
      Noise.genSurfaceY seed wx wz = Noise.surfaceFormula seed wx wz ∧
      ∀ (coord : ChunkCoord) (x y z : Nat),
        Noise.densityPre seed coord x y z =
          Noise.genSurfaceY seed ((coord.x * 32 + x : Int) : ℚ)
              ((coord.z * 32 + z : Int) : ℚ) -
            ((coord.y * 32 + y : Int) : ℚ) +
            Noise.caveTerm seed ((coord.x * 32 + x : Int) : ℚ)
              ((coord.y * 32 + y : Int) : ℚ) ((coord.z * 32 + z : Int) : ℚ)
              (Noise.genSurfaceY seed ((coord.x * 32 + x : Int) : ℚ)
                ((coord.z * 32 + z : Int) : ℚ)) := by
  intro seed wx wz
  exact ⟨rfl, rfl, fun coord x y z => rfl⟩

/-- C5 witness: the amended offset law at seed 42 and column (5, 7). -/
theorem c5_surface_sampler_amended_witness :
    Noise.sampleSurfaceY 42 5 7 = Noise.surfaceFormula 42 5 7 + 2 ∧
      Noise.genSurfaceY 42 5 7 = Noise.surfaceFormula 42 5 7 :=
  ⟨(c5_surface_sampler_amended 42 5 7).1, (c5_surface_sampler_amended 42 5 7).2.1⟩

namespace Pool

/-! ### Thread pool (src/shared/include/thread_pool.h)

The queue and the stop flag are only touched under `_mu`, so a worker's
behavior is a function of the state it observes when it holds the lock.
Tasks are abstract ids. One worker is modelled; the destructor's only
relevant action is setting `_stop` under the lock before joining. -/

/-- Source `(queue, stop)` — the pool state a worker observes under the mutex. -/
structure PoolState where
  queue : List Nat
  stop : Bool
deriving DecidableEq, Repr

/-- What a worker does in one pass of `workerLoop` given the state it
observes: block on the condition variable, exit, or pop and run the front
task (leaving the rest of the queue). -/
inductive WorkerAct where
  | wait
  | exit
  | run (t : Nat) (next : PoolState)
deriving DecidableEq, Repr

/-- One pass of `workerLoop`: the condition-variable predicate is
`stop || !queue.empty()`; once it holds, the worker returns only when
`_stop && _queue.empty()`, otherwise it pops the front task and runs it. -/
def workerStep (s : PoolState) : WorkerAct :=
  if s.stop ∧ s.queue = [] then .exit
  else
    match s.queue with
    | [] => .wait
    | t :: rest => .run t ⟨rest, s.stop⟩

/-- Iterate `workerStep` for at most `fuel` passes, collecting the tasks the
worker actually executes. -/
def workerRun (s : PoolState) : Nat → List Nat × PoolState
  | 0 => ([], s)
  | fuel + 1 =>
      match workerStep s with
      | .wait => ([], s)
      | .exit => ([], s)
      | .run t next =>
          let (ts, final) := workerRun next fuel
          (t :: ts, final)

end Pool

/-- C6 (counterexample): with the stop flag already set and one submitted,
unstarted task in the queue, the worker's next pass pops and executes that
task — `workerLoop` returns only when `_stop && _queue.empty()`, so a task
submitted but not yet started when the stop flag is set is executed, not
discarded. -/
theorem c6_pool_discard_counterexample :
    Pool.workerStep ⟨[7], true⟩ = .run 7 ⟨[], true⟩ ∧
      Pool.workerRun ⟨[7], true⟩ 2 = ([7], ⟨[], true⟩) := by
  constructor
  · decide
  · decide

/-- C6 (amended): when the pool is destroyed (stop flag set), a worker keeps
dequeuing and executing the remaining queued tasks in FIFO order and exits
only once the queue is empty; no submitted task is discarded. -/
theorem c6_pool_drains_on_shutdown (q : List Nat) (fuel : Nat)
    (hfuel : q.length < fuel) :
    Pool.workerRun ⟨q, true⟩ fuel = (q, ⟨[], true⟩) ∧
      Pool.workerStep ⟨[], true⟩ = .exit := by
  refine ⟨?_, rfl⟩
  induction q generalizing fuel with
  | nil =>
      match fuel, hfuel with
      | f + 1, _ => rfl
  | cons t rest ih =>
      match fuel, hfuel with
      | f + 1, hf =>
          have hrest := ih f (by simpa using Nat.lt_of_succ_lt_succ hf)
          simp [Pool.workerRun, Pool.workerStep, hrest]

/-- C6 witness: the amended drain theorem at a concrete three-task queue. -/
theorem c6_pool_drains_on_shutdown_witness :
    Pool.workerRun ⟨[3, 1, 2], true⟩ 4 = ([3, 1, 2], ⟨[], true⟩) ∧
      Pool.workerStep ⟨[], true⟩ = .exit :=
  c6_pool_drains_on_shutdown [3, 1, 2] 4 (by decide)

namespace Sched

/-! ### Server chunk scheduler (src/server/src/chunk_manager.cpp)

One client is modelled (the claim is per-peer). `unordered_set` members are
lists queried by membership; the cache is the set of coords present in
`_cache`; the ready queue records the coords pushed. The worker task
submitted on a cache miss runs later on the pool and is outside the
`updateClient`-only call sequences the claim quantifies over. -/

/-- A world position, as the three floats of `updateClient`. -/
structure Pos where
  x : ℚ
  y : ℚ
  z : ℚ
deriving DecidableEq, Repr

/-- Source `worldToChunk` — componentwise `(int)std::floor(w / SIZE)`. -/
def worldToChunk (p : Pos) : ChunkCoord :=
  ⟨⌊p.x / 32⌋, ⌊p.y / 32⌋, ⌊p.z / 32⌋⟩

theorem worldToChunk_first : worldToChunk ⟨0, 64, 0⟩ = ⟨0, 2, 0⟩ := by
  rw [worldToChunk]
  simp only [ChunkCoord.mk.injEq]
  refine ⟨?_, ?_, ?_⟩ <;> rw [Int.floor_eq_iff] <;> norm_num

theorem worldToChunk_second : worldToChunk ⟨1, 64, 1⟩ = ⟨0, 2, 0⟩ := by
  rw [worldToChunk]
  simp only [ChunkCoord.mk.injEq]
  refine ⟨?_, ?_, ?_⟩ <;> rw [Int.floor_eq_iff] <;> norm_num

/-- Source `INT_MIN`, the sentinel used for an invalid `lastChunk`. -/
def intMin : Int := -2147483648

/-- Source `ClientState` (src/server/include/chunk_manager.h). -/
structure ClientState where
  lastChunk : ChunkCoord
  sentChunks : List ChunkCoord
  pendingChunks : List ChunkCoord
deriving DecidableEq, Repr

/-- The scheduler state: the client, the cache key set, and the coords
pushed to the ready queue. -/
structure ManagerState where
  cs : ClientState
  cache : List ChunkCoord
  ready : List ChunkCoord
deriving DecidableEq, Repr

/-- A freshly added client (`addClient`) with a given cache. -/
def initState (cache : List ChunkCoord) : ManagerState where
  cs := ⟨⟨intMin, intMin, intMin⟩, [], []⟩
  cache := cache
  ready := []

/-- Source `scheduleChunk(cs, coord)` — early-out when the coord is in `sentChunks`
or `pendingChunks`; on a cache hit push to the ready queue and insert into
`sentChunks`; on a miss insert into `pendingChunks` (and submit the
generation task). The second component records the coords this call
scheduled. -/
def scheduleChunk (st : ManagerState) (c : ChunkCoord) :
    ManagerState × List ChunkCoord :=
  if c ∈ st.cs.sentChunks ∨ c ∈ st.cs.pendingChunks then (st, [])
  else if c ∈ st.cache then
    ({ st with
        ready := st.ready ++ [c]
        cs := { st.cs with sentChunks := c :: st.cs.sentChunks } }, [c])
  else
    ({ st with
        cs := { st.cs with pendingChunks := c :: st.cs.pendingChunks } }, [c])

/-- Source `Config::CHUNK_RADIUS_XZ`. -/
def CHUNK_RADIUS_XZ : Nat := 2

/-- Source `Config::CHUNK_RADIUS_Y`. -/
def CHUNK_RADIUS_Y : Nat := 1

/-- The integers `−r .. r`, the range of one working-set loop. -/
def intRange (r : Nat) : List Int :=
  (List.range (2 * r + 1)).map fun i => (i : Int) - r

/-- The working-set window of `updateClient`, in its loop order
(dx outer, dy middle, dz inner). -/
def window (c : ChunkCoord) : List ChunkCoord :=
  (intRange CHUNK_RADIUS_XZ).flatMap fun dx =>
    (intRange CHUNK_RADIUS_Y).flatMap fun dy =>
      (intRange CHUNK_RADIUS_XZ).map fun dz =>
        ⟨c.x + dx, c.y + dy, c.z + dz⟩

/-- The `scheduleChunk` loop body of `updateClient` over a coord list. -/
def schedList (st : ManagerState) : List ChunkCoord →
    ManagerState × List ChunkCoord
  | [] => (st, [])
  | c :: cs =>
      ((schedList (scheduleChunk st c).1 cs).1,
        (scheduleChunk st c).2 ++ (schedList (scheduleChunk st c).1 cs).2)

/-- Source `updateClient(peer, pos)` — no-op when the position stays in
`lastChunk`; otherwise set `lastChunk` and run `scheduleChunk` over the
window. -/
def updateClient (st : ManagerState) (p : Pos) :
    ManagerState × List ChunkCoord :=
  let center := worldToChunk p
  if center = st.cs.lastChunk then (st, [])
  else
    schedList { st with cs := { st.cs with lastChunk := center } }
      (window center)

/-- A sequence of `updateClient` calls, collecting the per-call schedule
logs. -/
def runUpdates (st : ManagerState) : List Pos →
    ManagerState × List (List ChunkCoord)
  | [] => (st, [])
  | p :: ps =>
      ((runUpdates (updateClient st p).1 ps).1,
        (updateClient st p).2 :: (runUpdates (updateClient st p).1 ps).2)

/-- A coord is in the client's working set (`sent ∪ pending`). -/
def inSP (cs : ClientState) (c : ChunkCoord) : Prop :=
  c ∈ cs.sentChunks ∨ c ∈ cs.pendingChunks

instance (cs : ClientState) (c : ChunkCoord) : Decidable (inSP cs c) := by
  unfold inSP; infer_instance

theorem scheduleChunk_spec (st : ManagerState) (c : ChunkCoord) :
    (inSP st.cs c ∧ scheduleChunk st c = (st, []) ∨
      ¬inSP st.cs c ∧ (scheduleChunk st c).2 = [c] ∧
        inSP (scheduleChunk st c).1.cs c) ∧
      ∀ x, inSP st.cs x → inSP (scheduleChunk st c).1.cs x := by
  rw [scheduleChunk]
  by_cases h : c ∈ st.cs.sentChunks ∨ c ∈ st.cs.pendingChunks
  · rw [if_pos h]
    exact ⟨Or.inl ⟨h, rfl⟩, fun x hx => hx⟩
  · rw [if_neg h]
    by_cases hc : c ∈ st.cache
    · rw [if_pos hc]
      refine ⟨Or.inr ⟨h, rfl, Or.inl (List.mem_cons_self c _)⟩, ?_⟩
      intro x hx
      rcases hx with hx | hx
      · exact Or.inl (List.mem_cons_of_mem c hx)
      · exact Or.inr hx
    · rw [if_neg hc]
      refine ⟨Or.inr ⟨h, rfl, Or.inr (List.mem_cons_self c _)⟩, ?_⟩
      intro x hx
      rcases hx with hx | hx
      · exact Or.inl hx
      · exact Or.inr (List.mem_cons_of_mem c hx)

theorem schedList_spec (cs : List ChunkCoord) (st : ManagerState) :
    (schedList st cs).2.Nodup ∧
      (∀ x ∈ (schedList st cs).2, ¬inSP st.cs x ∧
        inSP (schedList st cs).1.cs x) ∧
      ∀ x, inSP st.cs x → inSP (schedList st cs).1.cs x := by
  induction cs generalizing st with
  | nil => exact ⟨List.nodup_nil, fun x hx => absurd hx (List.not_mem_nil x), fun x hx => hx⟩
  | cons c cs ih =>
      obtain ⟨hcase, hmono⟩ := scheduleChunk_spec st c
      obtain ⟨ihnd, ihmem, ihmono⟩ := ih (scheduleChunk st c).1
      rw [schedList]
      rcases hcase with ⟨hin, heq⟩ | ⟨hnin, hlog, hpost⟩
      · rw [heq]
        have heq1 : (scheduleChunk st c).1 = st := by rw [heq]
        rw [heq1] at ihnd ihmem ihmono
        simpa using ⟨ihnd, ihmem, ihmono⟩
      · rw [hlog]
        refine ⟨?_, ?_, ?_⟩
        · simp only [List.singleton_append, List.nodup_cons]
          exact ⟨fun hc => (ihmem c hc).1 hpost, ihnd⟩
        · intro x hx
          simp only [List.singleton_append, List.mem_cons] at hx
          rcases hx with hx | hx
          · subst hx
            exact ⟨hnin, ihmono _ hpost⟩
          · exact ⟨fun hst => (ihmem x hx).1 (hmono x hst), (ihmem x hx).2⟩
        · intro x hx
          exact ihmono x (hmono x hx)

theorem updateClient_spec (st : ManagerState) (p : Pos) :
    (updateClient st p).2.Nodup ∧
      (∀ x ∈ (updateClient st p).2, ¬inSP st.cs x ∧
        inSP (updateClient st p).1.cs x) ∧
      ∀ x, inSP st.cs x → inSP (updateClient st p).1.cs x := by
  rw [updateClient]
  by_cases h : worldToChunk p = st.cs.lastChunk
  · rw [if_pos h]
    exact ⟨List.nodup_nil, fun x hx => absurd hx (List.not_mem_nil x), fun x hx => hx⟩
  · rw [if_neg h]
    exact schedList_spec _ _

theorem runUpdates_spec (ps : List Pos) (st : ManagerState) :
    (runUpdates st ps).2.flatten.Nodup ∧
      (∀ x ∈ (runUpdates st ps).2.flatten, ¬inSP st.cs x ∧
        inSP (runUpdates st ps).1.cs x) ∧
      ∀ x, inSP st.cs x → inSP (runUpdates st ps).1.cs x := by
  induction ps generalizing st with
  | nil => exact ⟨List.nodup_nil, fun x hx => absurd hx (List.not_mem_nil x), fun x hx => hx⟩
  | cons p ps ih =>
      obtain ⟨und, umem, umono⟩ := updateClient_spec st p
      obtain ⟨ihnd, ihmem, ihmono⟩ := ih (updateClient st p).1
      rw [runUpdates]
      refine ⟨?_, ?_, ?_⟩
      · simp only [List.flatten_cons]
        rw [List.nodup_append]
        refine ⟨und, ihnd, ?_⟩
        intro a ha hb
        exact (ihmem a hb).1 (umem a ha).2
      · intro x hx
        simp only [List.flatten_cons, List.mem_append] at hx
        rcases hx with hx | hx
        · exact ⟨(umem x hx).1, ihmono x (umem x hx).2⟩
        · exact ⟨fun hst => (ihmem x hx).1 (umono x hst), (ihmem x hx).2⟩
      · intro x hx
        exact ihmono x (umono x hx)

end Sched

/-- C8: over any sequence of `updateClient` calls whose positions all map to
the same chunk coordinate, starting from a fresh client with any cache
contents, no coordinate is scheduled twice (no coord already in
`sentChunks` or `pendingChunks` is scheduled again); concretely, with
radii (2, 1) the first update at (0, 64, 0) schedules exactly 75 coords and
an immediate repeat at (1, 64, 1) — the same chunk — schedules 0. -/
theorem c8_scheduler_idempotence :
    (∀ (cache : List ChunkCoord) (ps : List Sched.Pos) (c : ChunkCoord),
        (∀ p ∈ ps, Sched.worldToChunk p = c) →
        (Sched.runUpdates (Sched.initState cache) ps).2.flatten.Nodup) ∧
      ((Sched.runUpdates (Sched.initState [])
          [⟨0, 64, 0⟩, ⟨1, 64, 1⟩]).2.map List.length) = [75, 0] := by
  constructor
  · intro cache ps c _
    exact (Sched.runUpdates_spec ps (Sched.initState cache)).1
  · simp only [Sched.runUpdates, Sched.updateClient, Sched.worldToChunk_first,
      Sched.worldToChunk_second]
    decide

/-- C8 witness: the idempotence part applied to the concrete two-call
sequence at (0, 64, 0) and (1, 64, 1), both in chunk (0, 2, 0). -/
theorem c8_scheduler_idempotence_witness :
    (∀ p ∈ [Sched.Pos.mk 0 64 0, Sched.Pos.mk 1 64 1],
        Sched.worldToChunk p = ChunkCoord.mk 0 2 0) ∧
      (Sched.runUpdates (Sched.initState [])
        [Sched.Pos.mk 0 64 0, Sched.Pos.mk 1 64 1]).2.flatten.Nodup := by
  have hall : ∀ p ∈ [Sched.Pos.mk 0 64 0, Sched.Pos.mk 1 64 1],
      Sched.worldToChunk p = ChunkCoord.mk 0 2 0 := by
    intro p hp
    simp only [List.mem_cons, List.not_mem_nil, or_false] at hp
    rcases hp with rfl | rfl
    · exact Sched.worldToChunk_first
    · exact Sched.worldToChunk_second
  exact ⟨hall,
    c8_scheduler_idempotence.1 [] [Sched.Pos.mk 0 64 0, Sched.Pos.mk 1 64 1]
      (ChunkCoord.mk 0 2 0) hall⟩

namespace Player

/-! ### Client spawn gate and triangle soup (src/client/src/player.cpp)

Vectors are exact rationals. `_triSoups` is an association list keyed by
`ChunkCoord` (an `unordered_map`: `operator[]` replaces an existing key,
inserts otherwise). The mutations of `_triSoups` in the source are
`addChunkMesh` (insert), `removeChunk` and the per-tick unload loop (erase),
and `setSpawnPosition` (clear); states reachable after a spawn position is
set are therefore described by sequences of add/remove events. -/

/-- A rational 3-vector (idealized `glm::vec3`). -/
structure QVec3 where
  x : ℚ
  y : ℚ
  z : ℚ
deriving DecidableEq, Repr

instance : Add QVec3 :=
  ⟨fun a b => ⟨a.x + b.x, a.y + b.y, a.z + b.z⟩⟩

/-- Source `Vertex` with rational components. -/
structure QVertex where
  pos : QVec3
  normal : QVec3
deriving DecidableEq, Repr

/-- Source `ChunkMesh` with rational vertex data. -/
structure QMesh where
  coord : ChunkCoord
  vertices : List QVertex
  indices : List Nat
deriving DecidableEq, Repr

/-- The index loop of `addChunkMesh`
(`for (i = 0; i + 2 < indices.size(); i += 3)`): groups of three indices,
trailing remainder dropped. -/
def triTriples : List Nat → List (Nat × Nat × Nat)
  | a :: b :: c :: rest => (a, b, c) :: triTriples rest
  | _ => []

/-- Source `coord * SIZE`, the world-space offset of a chunk. -/
def meshOffset (c : ChunkCoord) : QVec3 :=
  ⟨((c.x * 32 : Int) : ℚ), ((c.y * 32 : Int) : ℚ), ((c.z * 32 : Int) : ℚ)⟩

/-- Source `mesh.vertices[i].pos` — out-of-range indices are undefined behavior in
the C++; modelled with a default so the soup is total (the claims do not
depend on the triangle values). -/
def vertexPos (m : QMesh) (i : Nat) : QVec3 :=
  (m.vertices.getD i ⟨⟨0, 0, 0⟩, ⟨0, 0, 0⟩⟩).pos

/-- The world-space triangle soup built from a mesh. -/
def buildTris (m : QMesh) : List QVec3 :=
  (triTriples m.indices).flatMap fun t =>
    [vertexPos m t.1 + meshOffset m.coord,
     vertexPos m t.2.1 + meshOffset m.coord,
     vertexPos m t.2.2 + meshOffset m.coord]

/-- Source `PlayerController` state relevant to the spawn gate. -/
structure PlayerState where
  spawned : Bool
  hasPendingSpawn : Bool
  pendingSpawn : QVec3
  triSoups : List (ChunkCoord × List QVec3)
  requiredChunks : List ChunkCoord
deriving DecidableEq, Repr

/-- Source `unordered_map::operator[] = value`: replace the entry of an existing
key, append otherwise. -/
def setKey (l : List (ChunkCoord × List QVec3)) (k : ChunkCoord)
    (v : List QVec3) : List (ChunkCoord × List QVec3) :=
  if k ∈ l.map Prod.fst then
    l.map fun kv => if kv.1 = k then (k, v) else kv
  else l ++ [(k, v)]

/-- Source `addChunkMesh` — the guard `if (mesh.vertices.empty()) return;` comes
first, so an empty-vertex mesh inserts nothing. -/
def addChunkMesh (st : PlayerState) (m : QMesh) : PlayerState :=
  if m.vertices = [] then st
  else { st with triSoups := setKey st.triSoups m.coord (buildTris m) }

/-- Source `removeChunk` — erase by key. -/
def removeChunk (st : PlayerState) (c : ChunkCoord) : PlayerState :=
  { st with triSoups := st.triSoups.filter fun kv => decide (kv.1 ≠ c) }

/-- Componentwise `(int)std::floor(pos / SIZE)` — the chunk containing a
world position, as computed in `spawnChunksReady` and
`buildRequiredChunks`. -/
def chunkOf (v : QVec3) : ChunkCoord :=
  ⟨⌊v.x / 32⌋, ⌊v.y / 32⌋, ⌊v.z / 32⌋⟩

/-- Source `buildRequiredChunks` — the 27 chunks around the spawn cell, in the
source's dx, dz, dy loop order. -/
def buildRequiredChunks (pos : QVec3) : List ChunkCoord :=
  (Sched.intRange 1).flatMap fun dx =>
    (Sched.intRange 1).flatMap fun dz =>
      (Sched.intRange 1).map fun dy =>
        ⟨(chunkOf pos).x + dx, (chunkOf pos).y + dy, (chunkOf pos).z + dz⟩

/-- Source `setSpawnPosition` — records the pending spawn, resets the gate, clears
the triangle soup and rebuilds the required set. -/
def setSpawnPosition (st : PlayerState) (pos : QVec3) : PlayerState :=
  { st with
      pendingSpawn := pos
      hasPendingSpawn := true
      spawned := false
      triSoups := []
      requiredChunks := buildRequiredChunks pos }

/-- The chunk directly below the spawn cell. -/
def belowSpawn (c : ChunkCoord) : ChunkCoord := ⟨c.x, c.y - 1, c.z⟩

/-- Source `spawnChunksReady` — requires a pending spawn and both the spawn cell
and the cell below it to be present in `_triSoups`. -/
def spawnChunksReady (st : PlayerState) : Bool :=
  st.hasPendingSpawn &&
    decide (chunkOf st.pendingSpawn ∈ st.triSoups.map Prod.fst) &&
    decide (belowSpawn (chunkOf st.pendingSpawn) ∈ st.triSoups.map Prod.fst)

/-- A mutation of `_triSoups` after the spawn position is set. -/
inductive PEvent where
  | add (m : QMesh)
  | remove (c : ChunkCoord)

/-- Apply one event. -/
def applyEvent (st : PlayerState) : PEvent → PlayerState
  | .add m => addChunkMesh st m
  | .remove c => removeChunk st c

/-- Apply a sequence of events. -/
def applyEvents (st : PlayerState) (evs : List PEvent) : PlayerState :=
  evs.foldl applyEvent st

theorem setKey_keys (l : List (ChunkCoord × List QVec3)) (k : ChunkCoord)
    (v : List QVec3) (c : ChunkCoord)
    (hc : c ∈ (setKey l k v).map Prod.fst) :
    c = k ∨ c ∈ l.map Prod.fst := by
  rw [setKey] at hc
  split at hc
  · simp only [List.map_map, List.mem_map, Function.comp] at hc
    obtain ⟨kv, hkv, hfst⟩ := hc
    by_cases hk : kv.1 = k
    · rw [if_pos hk] at hfst
      exact Or.inl hfst.symm
    · rw [if_neg hk] at hfst
      exact Or.inr (hfst ▸ List.mem_map_of_mem Prod.fst hkv)
  · simp only [List.map_append, List.mem_append, List.map_cons, List.map_nil,
      List.mem_cons, List.not_mem_nil, or_false] at hc
    rcases hc with hc | hc
    · exact Or.inr hc
    · exact Or.inl hc

theorem applyEvent_fields (st : PlayerState) (e : PEvent) :
    (applyEvent st e).pendingSpawn = st.pendingSpawn ∧
      (applyEvent st e).hasPendingSpawn = st.hasPendingSpawn := by
  cases e with
  | add m =>
      rw [applyEvent, addChunkMesh]
      split <;> exact ⟨rfl, rfl⟩
  | remove c => exact ⟨rfl, rfl⟩

theorem applyEvents_fields (evs : List PEvent) (st : PlayerState) :
    (applyEvents st evs).pendingSpawn = st.pendingSpawn ∧
      (applyEvents st evs).hasPendingSpawn = st.hasPendingSpawn := by
  induction evs generalizing st with
  | nil => exact ⟨rfl, rfl⟩
  | cons e evs ih =>
      obtain ⟨h1, h2⟩ := applyEvent_fields st e
      obtain ⟨ih1, ih2⟩ := ih (applyEvent st e)
      exact ⟨ih1.trans h1, ih2.trans h2⟩

theorem applyEvent_keys (st : PlayerState) (e : PEvent) (c : ChunkCoord)
    (hc : c ∈ (applyEvent st e).triSoups.map Prod.fst) :
    c ∈ st.triSoups.map Prod.fst ∨
      ∃ m, e = PEvent.add m ∧ m.coord = c ∧ m.vertices ≠ [] := by
  cases e with
  | add m =>
      rw [applyEvent, addChunkMesh] at hc
      split at hc
      · exact Or.inl hc
      · rcases setKey_keys _ _ _ _ hc with h | h
        · exact Or.inr ⟨m, rfl, h.symm, by assumption⟩
        · exact Or.inl h
  | remove k =>
      rw [applyEvent, removeChunk] at hc
      simp only [List.mem_map] at hc ⊢
      obtain ⟨kv, hkv, hfst⟩ := hc
      exact Or.inl ⟨kv, List.mem_of_mem_filter hkv, hfst⟩

theorem applyEvents_keys (evs : List PEvent) (st : PlayerState)
    (c : ChunkCoord)
    (hc : c ∈ (applyEvents st evs).triSoups.map Prod.fst) :
    c ∈ st.triSoups.map Prod.fst ∨
      ∃ m, PEvent.add m ∈ evs ∧ m.coord = c ∧ m.vertices ≠ [] := by
  induction evs generalizing st with
  | nil => exact Or.inl hc
  | cons e evs ih =>
      rcases ih (applyEvent st e) hc with h | ⟨m, hm, hcoord, hne⟩
      · rcases applyEvent_keys st e c h with h | ⟨m, he, hcoord, hne⟩
        · exact Or.inl h
        · exact Or.inr ⟨m, he ▸ List.mem_cons_self _ _, hcoord, hne⟩
      · exact Or.inr ⟨m, List.mem_cons_of_mem e hm, hcoord, hne⟩

end Player

/-- C9: `addChunkMesh` with an empty vertex list inserts nothing; after a
spawn position is set, `spawnChunksReady()` can be true only once both the
spawn cell and the cell below it have arrived via `addChunkMesh` with
non-empty vertex lists; and if every mesh delivered at those two reference
chunks is empty, the spawn gate stays closed in every reachable state. -/
theorem c9_spawn_gate :
    (∀ (st : Player.PlayerState) (m : Player.QMesh), m.vertices = [] →
        Player.addChunkMesh st m = st) ∧
      (∀ (st0 : Player.PlayerState) (pos : Player.QVec3)
          (evs : List Player.PEvent),
        Player.spawnChunksReady
            (Player.applyEvents (Player.setSpawnPosition st0 pos) evs) = true →
          (∃ m, Player.PEvent.add m ∈ evs ∧ m.coord = Player.chunkOf pos ∧
              m.vertices ≠ []) ∧
            ∃ m, Player.PEvent.add m ∈ evs ∧
              m.coord = Player.belowSpawn (Player.chunkOf pos) ∧
              m.vertices ≠ []) ∧
      ∀ (st0 : Player.PlayerState) (pos : Player.QVec3)
          (evs : List Player.PEvent),
        (∀ m, Player.PEvent.add m ∈ evs →
          m.coord = Player.chunkOf pos ∨
            m.coord = Player.belowSpawn (Player.chunkOf pos) →
          m.vertices = []) →
        Player.spawnChunksReady
          (Player.applyEvents (Player.setSpawnPosition st0 pos) evs) = false := by
  have hempty : ∀ (st : Player.PlayerState) (m : Player.QMesh),
      m.vertices = [] → Player.addChunkMesh st m = st := by
    intro st m hm
    rw [Player.addChunkMesh, if_pos hm]
  have harrive : ∀ (st0 : Player.PlayerState) (pos : Player.QVec3)
      (evs : List Player.PEvent),
      Player.spawnChunksReady
          (Player.applyEvents (Player.setSpawnPosition st0 pos) evs) = true →
        (∃ m, Player.PEvent.add m ∈ evs ∧ m.coord = Player.chunkOf pos ∧
            m.vertices ≠ []) ∧
          ∃ m, Player.PEvent.add m ∈ evs ∧
            m.coord = Player.belowSpawn (Player.chunkOf pos) ∧
            m.vertices ≠ [] := by
    intro st0 pos evs hready
    rw [Player.spawnChunksReady] at hready
    simp only [Bool.and_eq_true, decide_eq_true_eq] at hready
    obtain ⟨⟨-, hat⟩, hbelow⟩ := hready
    have hpend :=
      (Player.applyEvents_fields evs (Player.setSpawnPosition st0 pos)).1
    rw [hpend] at hat hbelow
    have hat' := Player.applyEvents_keys evs _ _ hat
    have hbelow' := Player.applyEvents_keys evs _ _ hbelow
    simp only [Player.setSpawnPosition, List.map_nil, List.not_mem_nil,
      false_or] at hat' hbelow'
    exact ⟨hat', hbelow'⟩
  refine ⟨hempty, harrive, ?_⟩
  intro st0 pos evs hall
  by_contra hne
  have htrue : Player.spawnChunksReady
      (Player.applyEvents (Player.setSpawnPosition st0 pos) evs) = true := by
    revert hne
    cases Player.spawnChunksReady
        (Player.applyEvents (Player.setSpawnPosition st0 pos) evs) <;> simp
  obtain ⟨⟨m1, hm1, hc1, hv1⟩, -⟩ := harrive st0 pos evs htrue
  exact hv1 (hall m1 hm1 (Or.inl hc1))

/-- C9 witness: with spawn at (0, 64, 0) — spawn cell (0, 2, 0), cell below
(0, 1, 0) — delivering a non-empty mesh elsewhere and an empty mesh at the
spawn cell leaves the gate closed. -/
theorem c9_spawn_gate_witness :
    (∀ m, Player.PEvent.add m ∈
        [Player.PEvent.add ⟨⟨9, 9, 9⟩, [⟨⟨1, 2, 3⟩, ⟨0, 1, 0⟩⟩], [0, 0, 0]⟩,
         Player.PEvent.add ⟨⟨0, 2, 0⟩, [], []⟩] →
      m.coord = Player.chunkOf ⟨0, 64, 0⟩ ∨
        m.coord = Player.belowSpawn (Player.chunkOf ⟨0, 64, 0⟩) →
      m.vertices = []) ∧
      Player.spawnChunksReady
        (Player.applyEvents
          (Player.setSpawnPosition
            ⟨false, false, ⟨0, 120, 0⟩, [], []⟩ ⟨0, 64, 0⟩)
          [Player.PEvent.add ⟨⟨9, 9, 9⟩, [⟨⟨1, 2, 3⟩, ⟨0, 1, 0⟩⟩], [0, 0, 0]⟩,
           Player.PEvent.add ⟨⟨0, 2, 0⟩, [], []⟩]) = false := by
  have hchunk : Player.chunkOf ⟨0, 64, 0⟩ = ⟨0, 2, 0⟩ := by
    rw [Player.chunkOf]
    simp only [ChunkCoord.mk.injEq]
    refine ⟨?_, ?_, ?_⟩ <;> rw [Int.floor_eq_iff] <;> norm_num
  have hall : ∀ m, Player.PEvent.add m ∈
      [Player.PEvent.add ⟨⟨9, 9, 9⟩, [⟨⟨1, 2, 3⟩, ⟨0, 1, 0⟩⟩], [0, 0, 0]⟩,
       Player.PEvent.add ⟨⟨0, 2, 0⟩, [], []⟩] →
      m.coord = Player.chunkOf ⟨0, 64, 0⟩ ∨
        m.coord = Player.belowSpawn (Player.chunkOf ⟨0, 64, 0⟩) →
      m.vertices = [] := by
    intro m hm hcoord
    rw [hchunk] at hcoord
    simp only [List.mem_cons, List.not_mem_nil, or_false] at hm
    rcases hm with hm | hm <;>
      cases Player.PEvent.add.inj hm <;> revert hcoord <;> decide
  exact ⟨hall, c9_spawn_gate.2.2 _ _ _ hall⟩

namespace Combat

/-! ### Combat system (src/client/include/combat_system.h,
src/shared/include/combat.h)

Float arithmetic is idealized as exact real arithmetic; `glm::length` and
`glm::normalize` use the real square root. Component structs follow
combat.h; the player's entry of the `_attackDir` scratch map is carried in
the state. Real-number comparisons use the classical order on `ℝ`. -/

/-- A real 3-vector (idealized `glm::vec3`). -/
structure RVec3 where
  x : ℝ
  y : ℝ
  z : ℝ

/-- Componentwise sum. -/
def RVec3.add (a b : RVec3) : RVec3 := ⟨a.x + b.x, a.y + b.y, a.z + b.z⟩

/-- Componentwise difference. -/
def RVec3.sub (a b : RVec3) : RVec3 := ⟨a.x - b.x, a.y - b.y, a.z - b.z⟩

/-- Scalar multiple (`v * s`). -/
def RVec3.scale (s : ℝ) (v : RVec3) : RVec3 := ⟨s * v.x, s * v.y, s * v.z⟩

/-- Division by a scalar (`v / s`). -/
noncomputable def RVec3.vdiv (v : RVec3) (s : ℝ) : RVec3 :=
  ⟨v.x / s, v.y / s, v.z / s⟩

/-- Source `glm::length` — the square root of the dot product with itself. -/
noncomputable def RVec3.len (v : RVec3) : ℝ :=
  Real.sqrt (v.x * v.x + v.y * v.y + v.z * v.z)

/-- Source `glm::normalize` — division by the length. -/
noncomputable def RVec3.normalize (v : RVec3) : RVec3 := v.vdiv v.len

/-- Source `aabbOverlap` — interval overlap on all three axes. -/
def aabbOverlap (mnA mxA mnB mxB : RVec3) : Prop :=
  mnA.x ≤ mxB.x ∧ mxA.x ≥ mnB.x ∧
  mnA.y ≤ mxB.y ∧ mxA.y ≥ mnB.y ∧
  mnA.z ≤ mxB.z ∧ mxA.z ≥ mnB.z

noncomputable instance (mnA mxA mnB mxB : RVec3) :
    Decidable (aabbOverlap mnA mxA mnB mxB) := by
  unfold aabbOverlap; infer_instance

/-- Source `AttackData` (combat.h). -/
structure AttackData where
  startup : ℝ
  active : ℝ
  recovery : ℝ
  damage : ℝ
  knockback : ℝ
  hitboxOffset : RVec3
  hitboxHalf : RVec3

/-- Source `SwordMoves::LIGHT`. -/
noncomputable def LIGHT : AttackData :=
  ⟨0.15, 0.10, 0.30, 15, 3, ⟨0, 0, -0.9⟩, ⟨0.4, 0.6, 0.5⟩⟩

/-- Source `SwordMoves::HEAVY`. -/
noncomputable def HEAVY : AttackData :=
  ⟨0.30, 0.15, 0.55, 35, 7, ⟨0, 0, -1.1⟩, ⟨0.6, 0.7, 0.6⟩⟩

/-- Source `CAttack::State`. -/
inductive AttackState where
  | Idle
  | Startup
  | Active
  | Recovery
deriving DecidableEq, Repr

/-- Source `CAttack` — state, remaining timer, and the current move data
(a pointer in the source, `none` when idle). -/
structure CAttack where
  state : AttackState
  timer : ℝ
  data : Option AttackData

/-- Source `CParry::State`. -/
inductive ParryState where
  | Idle
  | Active
  | Cooldown
deriving DecidableEq, Repr

/-- Source `CParry`. -/
structure CParry where
  state : ParryState
  timer : ℝ

/-- Source `CParry::WINDOW`. -/
noncomputable def parryWINDOW : ℝ := 0.20

/-- Source `CParry::COOLDOWN`. -/
noncomputable def parryCOOLDOWN : ℝ := 0.50

/-- Source `CDodge::State`. -/
inductive DodgeState where
  | Idle
  | Rolling
  | Cooldown
deriving DecidableEq, Repr

/-- Source `CDodge`. -/
structure CDodge where
  state : DodgeState
  timer : ℝ
  dir : RVec3
  speed : ℝ

/-- Source `CDodge::DURATION`. -/
noncomputable def dodgeDURATION : ℝ := 0.30

/-- Source `CDodge::IFRAMES`. -/
noncomputable def dodgeIFRAMES : ℝ := 0.20

/-- Source `CDodge::COOLDOWN`. -/
noncomputable def dodgeCOOLDOWN : ℝ := 0.50

/-- Source `CDodge::STAM_COST`. -/
noncomputable def dodgeSTAM_COST : ℝ := 20

/-- Source `CDodge::hasIFrames()` — rolling with
`timer > DURATION − IFRAMES`. -/
def CDodge.hasIFrames (d : CDodge) : Prop :=
  d.state = DodgeState.Rolling ∧ d.timer > dodgeDURATION - dodgeIFRAMES

noncomputable instance (d : CDodge) : Decidable d.hasIFrames := by
  unfold CDodge.hasIFrames; infer_instance

/-- Source `CStamina` (src/client/include/player.h). -/
structure CStamina where
  current : ℝ
  max : ℝ
  regenRate : ℝ
  sprintCost : ℝ
  jumpCost : ℝ
  depleted : Bool
  depleteCooldown : ℝ

/-- Source `CHealth`. -/
structure CHealth where
  current : ℝ
  max : ℝ
  dead : Bool

/-- The player's combat components together with its `_attackDir` entry. -/
structure PlayerCombat where
  sta : CStamina
  atk : CAttack
  par : CParry
  dod : CDodge
  attackDir : Option RVec3

/-- Source `CombatSystem::startAttack` — rejects unless the attack FSM is `Idle`;
otherwise enters `Startup`, arms the move data and stores the yaw-projected
normalized facing in `_attackDir`. -/
noncomputable def startAttack (σ : PlayerCombat) (data : AttackData)
    (facing : RVec3) : PlayerCombat :=
  if ¬σ.atk.state = AttackState.Idle then σ
  else
    { σ with
        atk := ⟨AttackState.Startup, data.startup, some data⟩
        attackDir := some (RVec3.normalize ⟨facing.x, 0, facing.z⟩) }

/-- Source `CombatSystem::playerLightAttack`. -/
noncomputable def playerLightAttack (σ : PlayerCombat) (facing : RVec3) :
    PlayerCombat :=
  startAttack σ LIGHT facing

/-- Source `CombatSystem::playerHeavyAttack` — checks stamina and deducts the
25-point cost **before** delegating to `startAttack` (whose `Idle` check may
still reject the request). -/
noncomputable def playerHeavyAttack (σ : PlayerCombat) (facing : RVec3) :
    PlayerCombat :=
  if σ.sta.current < 25 ∨ σ.sta.depleted = true then σ
  else
    startAttack
      { σ with sta := { σ.sta with current := σ.sta.current - 25 } }
      HEAVY facing

/-- Source `CombatSystem::playerParry` — transcribed with the source's two guards
(`!atk.isIdle() || !par.isActive() && par.state != Idle`, then
`par.state != Idle`). -/
noncomputable def playerParry (σ : PlayerCombat) : PlayerCombat :=
  if ¬σ.atk.state = AttackState.Idle ∨
      (¬σ.par.state = ParryState.Active ∧ ¬σ.par.state = ParryState.Idle) then σ
  else if ¬σ.par.state = ParryState.Idle then σ
  else { σ with par := ⟨ParryState.Active, parryWINDOW⟩ }

/-- Source `CombatSystem::playerDodge` — all preconditions are checked before any
mutation; on success stamina drops by `STAM_COST`, the dodge rolls for
`DURATION`, and the direction is the normalized wish direction, or
(0, 0, −1) when the wish direction is shorter than the 0.001 guard. -/
noncomputable def playerDodge (σ : PlayerCombat) (wishDir : RVec3) :
    PlayerCombat :=
  if ¬σ.dod.state = DodgeState.Idle ∨ σ.sta.depleted = true ∨
      σ.sta.current < dodgeSTAM_COST then σ
  else if ¬σ.atk.state = AttackState.Idle then σ
  else
    { σ with
        sta := { σ.sta with current := σ.sta.current - dodgeSTAM_COST }
        dod :=
          { σ.dod with
              state := DodgeState.Rolling
              timer := dodgeDURATION
              dir :=
                if wishDir.len > 0.001 then wishDir.vdiv wishDir.len
                else ⟨0, 0, -1⟩ } }

/-- Source `CHitThisFrame` (combat.h). -/
structure Hit where
  worldMin : RVec3
  worldMax : RVec3
  damage : ℝ
  knockback : ℝ
  knockDir : RVec3
  fromPlayer : Bool

/-- Source `CEnemy::AIState`. -/
inductive AIState where
  | Patrol
  | Aggro
  | Attack
  | Dead
deriving DecidableEq, Repr

/-- Source `CEnemy` — only `ai` and `knockbackVel` are touched by hit
resolution. -/
structure EnemyComp where
  ai : AIState
  patrolOrigin : RVec3
  aggroRange : ℝ
  attackRange : ℝ
  attackTimer : ℝ
  attackCooldown : ℝ
  knockbackVel : RVec3

/-- An enemy entity's components as viewed by `resolveHits`. -/
structure Enemy where
  tf : RVec3
  box : RVec3
  hp : CHealth
  en : EnemyComp

/-- The player entity's components as viewed by `resolveHits`
(`invincible` is the optional `CInvincible` timer). -/
structure PlayerEnt where
  tf : RVec3
  box : RVec3
  hp : CHealth
  par : CParry
  dod : CDodge
  invincible : Option ℝ

/-- The combat world at resolution time: the player, the enemies, and the
pending `HitThisFrame` entities in emission order. -/
structure World where
  player : PlayerEnt
  enemies : List Enemy
  pendingHits : List Hit

/-- The per-enemy body of the `fromPlayer` branch of `resolveHits`: skip
dead enemies and non-overlapping AABBs; otherwise subtract damage, set the
knockback velocity, and on reaching 0 HP mark dead and set the AI state to
`Dead`. -/
noncomputable def applyPlayerHit (h : Hit) (e : Enemy) : Enemy :=
  if e.hp.dead = true then e
  else if ¬aabbOverlap h.worldMin h.worldMax (e.tf.sub e.box) (e.tf.add e.box)
    then e
  else if e.hp.current - h.damage ≤ 0 then
    { e with
        hp := ⟨0, e.hp.max, true⟩
        en := { e.en with
                  knockbackVel := RVec3.scale h.knockback h.knockDir
                  ai := AIState.Dead } }
  else
    { e with
        hp := ⟨e.hp.current - h.damage, e.hp.max, e.hp.dead⟩
        en := { e.en with knockbackVel := RVec3.scale h.knockback h.knockDir } }

/-- The `for (auto hitEnt : _pendingHits)` loop of
`CombatSystem::resolveHits`. A `fromPlayer` hit is applied to every enemy
via the view lambda and the loop continues; in the enemy-hit branch every
skip condition — player dead, invincible, i-framing, no overlap — and the
successful parry execute a `return` statement, which exits `resolveHits`
itself, abandoning the remaining pending hits. Only the plain damage path
falls through to the next iteration. -/
noncomputable def resolveHitsGo :
    PlayerEnt → List Enemy → List Hit → PlayerEnt × List Enemy
  | p, es, [] => (p, es)
  | p, es, h :: rest =>
      if h.fromPlayer = true then
        resolveHitsGo p (es.map (applyPlayerHit h)) rest
      else if p.hp.dead = true then (p, es)
      else if p.invincible.isSome = true then (p, es)
      else if p.dod.hasIFrames then (p, es)
      else if ¬aabbOverlap h.worldMin h.worldMax (p.tf.sub p.box)
          (p.tf.add p.box) then (p, es)
      else if p.par.state = ParryState.Active then
        ({ p with
             par := ⟨ParryState.Cooldown, parryCOOLDOWN⟩
             invincible := some 0.5 }, es)
      else if p.hp.current - h.damage ≤ 0 then
        resolveHitsGo
          { p with hp := ⟨0, p.hp.max, true⟩, invincible := some 0.3 }
          es rest
      else
        resolveHitsGo
          { p with
              hp := ⟨p.hp.current - h.damage, p.hp.max, p.hp.dead⟩
              invincible := some 0.3 }
          es rest

/-- Source `CombatSystem::resolveHits`. -/
noncomputable def resolveHits (w : World) : World :=
  { w with
      player := (resolveHitsGo w.player w.enemies w.pendingHits).1
      enemies := (resolveHitsGo w.player w.enemies w.pendingHits).2 }

end Combat

/-- The failing input for the heavy-attack claim: the attack FSM is in
`Startup` (mid light attack), stamina is full (100) and not depleted. -/
noncomputable def c2State : Combat.PlayerCombat :=
  ⟨⟨100, 100, 15, 20, 15, false, 0⟩,
   ⟨Combat.AttackState.Startup, 0.1, some Combat.LIGHT⟩,
   ⟨Combat.ParryState.Idle, 0⟩,
   ⟨Combat.DodgeState.Idle, 0, ⟨0, 0, 0⟩, 12⟩,
   none⟩

/-- C2 (code bug): a heavy-attack request issued while the attack FSM is in
`Startup`, with stamina 100 and not depleted, is rejected (the FSM and its
timer are unchanged) — yet stamina drops from 100 to 75, because
`playerHeavyAttack` deducts the 25-point cost before `startAttack` performs
its `Idle` check. The claim's "stamina unchanged" is violated. -/
theorem c2_heavy_attack_rejected_but_deducts_stamina :
    (Combat.playerHeavyAttack c2State ⟨0, 0, -1⟩).atk.state =
        Combat.AttackState.Startup ∧
      (Combat.playerHeavyAttack c2State ⟨0, 0, -1⟩).atk.timer =
        c2State.atk.timer ∧
      (Combat.playerHeavyAttack c2State ⟨0, 0, -1⟩).par = c2State.par ∧
      (Combat.playerHeavyAttack c2State ⟨0, 0, -1⟩).dod = c2State.dod ∧
      c2State.sta.current = 100 ∧ c2State.sta.depleted = false ∧
      (Combat.playerHeavyAttack c2State ⟨0, 0, -1⟩).sta.current = 75 := by
  have hcond : ¬(c2State.sta.current < 25 ∨ c2State.sta.depleted = true) := by
    rw [c2State]
    norm_num
  have hguard :
      ¬({ c2State with
            sta := { c2State.sta with
                       current := c2State.sta.current - 25 } }.atk.state =
          Combat.AttackState.Idle) := by
    rw [c2State]
    exact fun h => Combat.AttackState.noConfusion h
  rw [Combat.playerHeavyAttack, if_neg hcond, Combat.startAttack, if_pos hguard]
  refine ⟨?_, rfl, rfl, rfl, ?_, rfl, ?_⟩
  · rw [c2State]
  · rw [c2State]
  · show c2State.sta.current - 25 = 75
    rw [c2State]
    norm_num

/-- The player state for the C3 scenario: at the origin, alive, parry and
dodge idle, currently invincible (timer 1 s). -/
noncomputable def c3Player : Combat.PlayerEnt :=
  ⟨⟨0, 0, 0⟩, ⟨1, 1, 1⟩, ⟨100, 100, false⟩, ⟨Combat.ParryState.Idle, 0⟩,
   ⟨Combat.DodgeState.Idle, 0, ⟨0, 0, 0⟩, 12⟩, some 1⟩

/-- The enemy for the C3 scenario: at (0, 0, −1), 60 HP, alive. -/
noncomputable def c3Enemy : Combat.Enemy :=
  ⟨⟨0, 0, -1⟩, ⟨1, 1, 1⟩, ⟨60, 60, false⟩,
   ⟨Combat.AIState.Aggro, ⟨0, 0, 0⟩, 12, 1.8, 0, 1.5, ⟨0, 0, 0⟩⟩⟩

/-- An enemy-originated hit whose AABB overlaps the player. -/
noncomputable def c3EnemyHit : Combat.Hit :=
  ⟨⟨-1, -1, -1⟩, ⟨1, 1, 1⟩, 15, 3, ⟨0, 0, 1⟩, false⟩

/-- A player-originated hit (LIGHT: damage 15, knockback 3) whose AABB
overlaps the enemy. -/
noncomputable def c3PlayerHit : Combat.Hit :=
  ⟨⟨-1, -1, -2⟩, ⟨1, 1, 0⟩, 15, 3, ⟨0, 0, -1⟩, true⟩

/-- The pending-hit list of one tick: the enemy's hit first (skipped — the
player is invincible), the player's hit second. -/
noncomputable def c3World : Combat.World :=
  ⟨c3Player, [c3Enemy], [c3EnemyHit, c3PlayerHit]⟩

/-- C3 (code bug): when the enemy-originated hit is skipped because the
player is invincible, the skip is a `return` from `resolveHits`, so the
player-originated hit queued behind it is never resolved: the enemy keeps
its 60 HP. Had the second hit been processed per its rule
(`applyPlayerHit`), the enemy would have 45 HP and still be alive. -/
theorem c3_skipped_hit_aborts_resolution :
    ((Combat.resolveHits c3World).enemies.map fun e => e.hp.current) = [60] ∧
      (Combat.resolveHits c3World).player.invincible = c3Player.invincible ∧
      (Combat.applyPlayerHit c3PlayerHit c3Enemy).hp.current = 45 ∧
      (Combat.applyPlayerHit c3PlayerHit c3Enemy).hp.dead = false := by
  have hresolve :
      Combat.resolveHitsGo c3Player [c3Enemy] [c3EnemyHit, c3PlayerHit] =
        (c3Player, [c3Enemy]) := by
    rw [Combat.resolveHitsGo]
    rw [if_neg (by rw [c3EnemyHit]; exact Bool.false_ne_true)]
    rw [if_neg (by rw [c3Player]; exact Bool.false_ne_true)]
    rw [if_pos (by rw [c3Player]; rfl)]
  have hoverlap : Combat.aabbOverlap c3PlayerHit.worldMin c3PlayerHit.worldMax
      (c3Enemy.tf.sub c3Enemy.box) (c3Enemy.tf.add c3Enemy.box) := by
    rw [c3PlayerHit, c3Enemy, Combat.RVec3.sub, Combat.RVec3.add,
      Combat.aabbOverlap]
    norm_num
  have happly : Combat.applyPlayerHit c3PlayerHit c3Enemy =
      { c3Enemy with
          hp := ⟨c3Enemy.hp.current - c3PlayerHit.damage, c3Enemy.hp.max,
            c3Enemy.hp.dead⟩
          en := { c3Enemy.en with
                    knockbackVel :=
                      Combat.RVec3.scale c3PlayerHit.knockback
                        c3PlayerHit.knockDir } } := by
    rw [Combat.applyPlayerHit]
    rw [if_neg (by rw [c3Enemy]; exact Bool.false_ne_true)]
    rw [if_neg (not_not_intro hoverlap)]
    rw [if_neg (by rw [c3Enemy, c3PlayerHit]; norm_num)]
  refine ⟨?_, ?_, ?_, ?_⟩
  · rw [Combat.resolveHits]
    show ((Combat.resolveHitsGo c3World.player c3World.enemies
        c3World.pendingHits).2.map fun e => e.hp.current) = [60]
    rw [show c3World.player = c3Player from rfl,
      show c3World.enemies = [c3Enemy] from rfl,
      show c3World.pendingHits = [c3EnemyHit, c3PlayerHit] from rfl, hresolve]
    show ([c3Enemy].map fun e => e.hp.current) = [60]
    simp only [List.map_cons, List.map_nil]
    rw [show c3Enemy.hp.current = 60 from by rw [c3Enemy]]
  · rw [Combat.resolveHits]
    show (Combat.resolveHitsGo c3World.player c3World.enemies
        c3World.pendingHits).1.invincible = c3Player.invincible
    rw [show c3World.player = c3Player from rfl,
      show c3World.enemies = [c3Enemy] from rfl,
      show c3World.pendingHits = [c3EnemyHit, c3PlayerHit] from rfl, hresolve]
  · rw [happly]
    show c3Enemy.hp.current - c3PlayerHit.damage = 45
    rw [c3Enemy, c3PlayerHit]
    norm_num
  · rw [happly]
    show c3Enemy.hp.dead = false
    rw [c3Enemy]

/-- C10: a dodge request that passes all preconditions (dodge idle, attack
idle, stamina not depleted, stamina ≥ 20) always starts the dodge: stamina
drops by exactly 20, the dodge rolls for `DURATION`, and the direction is
(0, 0, −1) when the wish direction's length is ≤ 0.001, else the wish
direction divided by its length — a unit vector. -/
theorem c10_dodge_start (σ : Combat.PlayerCombat) (w : Combat.RVec3)
    (hdod : σ.dod.state = Combat.DodgeState.Idle)
    (hatk : σ.atk.state = Combat.AttackState.Idle)
    (hdep : σ.sta.depleted = false)
    (hsta : 20 ≤ σ.sta.current) :
    (Combat.playerDodge σ w).sta.current = σ.sta.current - 20 ∧
      (Combat.playerDodge σ w).dod.state = Combat.DodgeState.Rolling ∧
      (Combat.playerDodge σ w).dod.timer = Combat.dodgeDURATION ∧
      (w.len ≤ 0.001 →
        (Combat.playerDodge σ w).dod.dir = ⟨0, 0, -1⟩) ∧
      (0.001 < w.len →
        (Combat.playerDodge σ w).dod.dir = w.vdiv w.len ∧
          (Combat.playerDodge σ w).dod.dir.len = 1) := by
  have hguard1 : ¬(¬σ.dod.state = Combat.DodgeState.Idle ∨
      σ.sta.depleted = true ∨ σ.sta.current < Combat.dodgeSTAM_COST) := by
    rw [Combat.dodgeSTAM_COST]
    push_neg
    exact ⟨hdod, by rw [hdep]; exact Bool.false_ne_true, hsta⟩
  have hguard2lhs : ¬¬σ.atk.state = Combat.AttackState.Idle :=
    not_not_intro hatk
  rw [Combat.playerDodge, if_neg hguard1, if_neg hguard2lhs]
  refine ⟨?_, rfl, rfl, ?_, ?_⟩
  · show σ.sta.current - Combat.dodgeSTAM_COST = σ.sta.current - 20
    rw [Combat.dodgeSTAM_COST]
  · intro hle
    show (if w.len > 0.001 then w.vdiv w.len else ⟨0, 0, -1⟩) =
      (⟨0, 0, -1⟩ : Combat.RVec3)
    rw [if_neg (not_lt.mpr hle)]
  · intro hlt
    show (if w.len > 0.001 then w.vdiv w.len else ⟨0, 0, -1⟩) = w.vdiv w.len ∧
      (if w.len > 0.001 then w.vdiv w.len else ⟨0, 0, -1⟩).len = 1
    rw [if_pos hlt]
    refine ⟨rfl, ?_⟩
    have hS : (0 : ℝ) ≤ w.x * w.x + w.y * w.y + w.z * w.z :=
      add_nonneg (add_nonneg (mul_self_nonneg w.x) (mul_self_nonneg w.y))
        (mul_self_nonneg w.z)
    have hL : (0 : ℝ) < w.len := lt_trans (by norm_num) hlt
    have hLne : w.len ≠ 0 := ne_of_gt hL
    have hLL : w.len * w.len = w.x * w.x + w.y * w.y + w.z * w.z :=
      Real.mul_self_sqrt hS
    have hSpos : (0 : ℝ) < w.x * w.x + w.y * w.y + w.z * w.z := by
      rw [← hLL]
      exact mul_pos hL hL
    have hsum : w.x / w.len * (w.x / w.len) + w.y / w.len * (w.y / w.len) +
        w.z / w.len * (w.z / w.len) = 1 := by
      have hre : w.x / w.len * (w.x / w.len) + w.y / w.len * (w.y / w.len) +
          w.z / w.len * (w.z / w.len) =
          (w.x * w.x + w.y * w.y + w.z * w.z) / (w.len * w.len) := by
        field_simp
      rw [hre, hLL, div_self (ne_of_gt hSpos)]
    show Real.sqrt (w.x / w.len * (w.x / w.len) +
      w.y / w.len * (w.y / w.len) + w.z / w.len * (w.z / w.len)) = 1
    rw [hsum, Real.sqrt_one]

/-- A player combat state passing every dodge precondition (stamina 50). -/
noncomputable def c10State : Combat.PlayerCombat :=
  ⟨⟨50, 100, 15, 20, 15, false, 0⟩,
   ⟨Combat.AttackState.Idle, 0, none⟩,
   ⟨Combat.ParryState.Idle, 0⟩,
   ⟨Combat.DodgeState.Idle, 0, ⟨0, 0, 0⟩, 12⟩,
   none⟩

/-- C10 witness: the dodge theorem at the concrete state (stamina 50) and
wish direction (0, 0, −2). -/
theorem c10_dodge_start_witness :
    c10State.dod.state = Combat.DodgeState.Idle ∧
      c10State.atk.state = Combat.AttackState.Idle ∧
      c10State.sta.depleted = false ∧
      20 ≤ c10State.sta.current ∧
      ((Combat.playerDodge c10State ⟨0, 0, -2⟩).sta.current =
          c10State.sta.current - 20 ∧
        (Combat.playerDodge c10State ⟨0, 0, -2⟩).dod.state =
          Combat.DodgeState.Rolling ∧
        (Combat.playerDodge c10State ⟨0, 0, -2⟩).dod.timer =
          Combat.dodgeDURATION ∧
        ((Combat.RVec3.mk 0 0 (-2)).len ≤ 0.001 →
          (Combat.playerDodge c10State ⟨0, 0, -2⟩).dod.dir = ⟨0, 0, -1⟩) ∧
        (0.001 < (Combat.RVec3.mk 0 0 (-2)).len →
          (Combat.playerDodge c10State ⟨0, 0, -2⟩).dod.dir =
              (Combat.RVec3.mk 0 0 (-2)).vdiv (Combat.RVec3.mk 0 0 (-2)).len ∧
            (Combat.playerDodge c10State ⟨0, 0, -2⟩).dod.dir.len = 1)) :=
  ⟨rfl, rfl, rfl, by rw [c10State]; norm_num,
    c10_dodge_start c10State ⟨0, 0, -2⟩ rfl rfl rfl
      (by rw [c10State]; norm_num)⟩

/-- C7 witness: the roundtrip theorem applied to the concrete codec-vector
mesh, all hypotheses discharged by evaluation. -/
theorem c7_codec_roundtrip_witness :
    Packets.ChunkDataPacket.deserialize
        (Packets.ChunkDataPacket.ofMesh Packets.exampleMesh).serialize =
      some (Packets.ChunkDataPacket.ofMesh Packets.exampleMesh) ∧
      (Packets.ChunkDataPacket.ofMesh Packets.exampleMesh).toMesh =
        Packets.exampleMesh :=
  c7_codec_roundtrip Packets.exampleMesh (by decide) (by decide) (by decide)
    (by decide) (by decide) (by decide) (by decide) (by decide)
    (by decide) (by decide)
